import Mathlib

/-!
# claircore: vulnerability match query (`postgres.get`) and the RHEL distribution scanner

A shallow embedding of

* `internal/vulnstore/postgres/get.go` : `get`, the batched vulnerability lookup;
* `rhel/distributionscanner.go` : `DistributionScanner.Scan` and `parse`.

Database calls are answered by an explicit environment (`Driver`); every call the
function issues is recorded in a trace of `Event`s, so that ordering properties can
be stated.  Go `(value, error)` results are kept as a pair of options, `none`
standing for `nil`.
-/

set_option autoImplicit false

namespace Claircore

/-! ## Go strings, bytes and errors -/

/-- The UTF-8 encoding of one code point, as a list of byte values. -/
def utf8Bytes (c : Char) : List Nat :=
  let n := c.toNat
  if n < 0x80 then [n]
  else if n < 0x800 then [0xC0 + n / 0x40, 0x80 + n % 0x40]
  else if n < 0x10000 then [0xE0 + n / 0x1000, 0x80 + n / 0x40 % 0x40, 0x80 + n % 0x40]
  else [0xF0 + n / 0x40000, 0x80 + n / 0x1000 % 0x40, 0x80 + n / 0x40 % 0x40, 0x80 + n % 0x40]

/-- The bytes of a Go string (`[]byte(s)`): a Go string is its UTF-8 byte sequence. -/
def stringBytes (s : String) : List Nat :=
  s.toList.flatMap utf8Bytes

/-- A Go `error` value, observed through its `Error()` message. -/
structure GoError where
  msg : String
deriving DecidableEq, Repr

/-- The call `fmt.Errorf(pfx + "%v", err)`: a fresh error whose message is the text
of the format string up to the verb followed by `err.Error()`. -/
def Errorf (pfx : String) (err : GoError) : GoError :=
  ⟨pfx ++ err.msg⟩

/-! ## `hash/fnv` and `encoding/hex` (Go standard library) -/

namespace fnv

/-- The constant `offset64` of `hash/fnv`. -/
def offset64 : Nat := 14695981039346656037

/-- The constant `prime64` of `hash/fnv`. -/
def prime64 : Nat := 1099511628211

/-- The state of `fnv.New64a()`. -/
def New64a : Nat := offset64

/-- The method `(*sum64a).Write`: `for _, c := range data { hash ^= sum64a(c); hash *= prime64 }`
on a 64-bit unsigned state. -/
def Write : Nat → List Nat → Nat
  | hash, [] => hash
  | hash, c :: data => Write (((hash ^^^ c) * prime64) % 2 ^ 64) data

/-- The method `(*sum64a).Sum(in)`: appends the state as eight bytes, most significant first. -/
def Sum (s : Nat) (b : List Nat) : List Nat :=
  b ++ [(s >>> 56) % 256, (s >>> 48) % 256, (s >>> 40) % 256, (s >>> 32) % 256,
        (s >>> 24) % 256, (s >>> 16) % 256, (s >>> 8) % 256, s % 256]

end fnv

namespace hex

/-- The table `hextable` of `encoding/hex`. -/
def hextable : List Char := "0123456789abcdef".toList

/-- The loop of `hex.Encode`: `dst[j] = hextable[v>>4]; dst[j+1] = hextable[v&0x0f]`. -/
def Encode : List Nat → List Char
  | [] => []
  | v :: src => hextable.getD (v >>> 4) '?' :: hextable.getD (v &&& 0x0f) '?' :: Encode src

/-- The function `hex.EncodeToString`. -/
def EncodeToString (src : List Nat) : String :=
  String.mk (Encode src)

end hex

/-- The prepared-statement name of `get` (get.go lines 30-34):
`h := fnv.New64a(); io.WriteString(h, query); name := hex.EncodeToString(h.Sum(nil))`. -/
def stmtName (query : String) : String :=
  let h := fnv.Write fnv.New64a (stringBytes query)
  hex.EncodeToString (fnv.Sum h [])

/-! ## Data model -/

/-- The type `driver.MatchConstraint`: the eight constants `get` switches on; any other
value of the underlying integer type is `other`. -/
inductive MatchConstraint where
  | DistributionDID
  | DistributionName
  | DistributionVersion
  | DistributionVersionCodeName
  | DistributionVersionID
  | DistributionArch
  | DistributionCPE
  | DistributionPrettyName
  | other (code : Nat)
deriving DecidableEq, Repr

/-- Membership in the eight-value matcher vocabulary. -/
def MatchConstraint.inVocabulary : MatchConstraint → Bool
  | .other _ => false
  | _ => true

/-- The fields of `claircore.Distribution` that `get` reads and scans. -/
structure Distribution where
  DID : String
  Name : String
  Version : String
  VersionCodeName : String
  VersionID : String
  Arch : String
  CPE : String
  PrettyName : String
deriving DecidableEq, Repr

/-- The source package of a package, `Package.Source`; only its name is read. -/
structure SourcePackage where
  Name : String
deriving DecidableEq, Repr

/-- The fields of `claircore.Package` that `get` reads and scans. -/
structure Package where
  ID : Int
  Name : String
  Version : String
  Kind : String
  Source : SourcePackage
deriving DecidableEq, Repr

/-- The fields of `claircore.Repository` that `get` scans. -/
structure Repository where
  Name : String
  Key : String
  URI : String
deriving DecidableEq, Repr

/-- The type `claircore.IndexRecord`, with its pointers populated. -/
structure IndexRecord where
  Package : Package
  Distribution : Distribution
  Repository : Repository
deriving DecidableEq, Repr

/-- The type `claircore.Vulnerability`, as `rows.Scan` fills it (get.go lines 103-130). -/
structure Vulnerability where
  ID : String
  Name : String
  Description : String
  Links : String
  Severity : String
  Package : Package
  Dist : Distribution
  Repo : Repository
  FixedInVersion : String
deriving DecidableEq, Repr

/-- The type `vulnstore.GetOpts`; `get` reads `Matchers` only. -/
structure GetOpts where
  Matchers : List MatchConstraint
deriving DecidableEq, Repr

/-! ## The result map `map[int][]*claircore.Vulnerability` -/

/-- A Go map from package id to vulnerabilities, kept as an association list with one
entry per key.  A Go map has no order: only `VulnMap.find` is observable. -/
abbrev VulnMap := List (Int × List Vulnerability)

/-- The map read `results[k]` with its presence flag. -/
def VulnMap.find : VulnMap → Int → Option (List Vulnerability)
  | [], _ => none
  | (k', vs) :: m, k => if k' = k then some vs else VulnMap.find m k

/-- The map write `results[k] = vs`. -/
def VulnMap.set : VulnMap → Int → List Vulnerability → VulnMap
  | [], k, vs => [(k, vs)]
  | (k', vs') :: m, k, vs => if k' = k then (k, vs) :: m else (k', vs') :: VulnMap.set m k vs

/-- The statement at get.go lines 137-142: create the entry on first use, append otherwise. -/
def VulnMap.add (results : VulnMap) (id : Int) (v : Vulnerability) : VulnMap :=
  match results.find id with
  | none => results.set id [v]
  | some vulns => results.set id (vulns ++ [v])

/-! ## The database environment and the trace -/

/-- One queued statement of a `pgx.Batch`: `batch.Queue(name, args...)`. -/
structure Queued where
  name : String
  args : List String
deriving DecidableEq, Repr

/-- The value `*pgconn.StatementDescription` returned by `tx.Prepare`; `get` reads `Name`. -/
structure StatementDescription where
  Name : String
deriving DecidableEq, Repr

/-- One result cursor (`pgx.Rows`): the outcome of `rows.Scan` for each row that
`rows.Next` delivers, in the order the database returns them. -/
abbrev Rows := List (Except GoError Vulnerability)

/-- The calls `get` makes on its collaborators and what each answers.  The query
builder `getBuilder` is not part of the file and is a parameter here. -/
structure Driver where
  /-- The function `getBuilder(opts.Matchers)`: query text and deduplicated matchers. -/
  getBuilder : List MatchConstraint → Except GoError (String × List MatchConstraint)
  /-- The error result of `io.WriteString(h, query)`. -/
  writeString : String → Option GoError
  /-- The error result of `pool.Begin(ctx)`. -/
  begin : Option GoError
  /-- The result of `tx.Prepare(ctx, name, query)`. -/
  prepare : String → String → Except GoError StatementDescription
  /-- The result of the `i`-th call (from 0) of `res.Query()` on the sent batch. -/
  query : List Queued → Nat → Except GoError Rows
  /-- The error result of `res.Close()` once the loop over the records is done. -/
  close : Option GoError
  /-- The error result of `tx.Commit(ctx)`. -/
  commit : Option GoError

/-- The operations `get` issues, in program order. -/
inductive Event where
  | poolBegin
  | txPrepare (name query : String)
  | batchQueue (q : Queued)
  | txSendBatch
  | resQuery
  | rowsNext (more : Bool)
  | rowsScan
  | resClose
  | txCommit
  | txRollback
deriving DecidableEq, Repr

/-- What a call of `get` returns, `none` for `nil`, and the operations it issued. -/
structure Outcome where
  results : Option VulnMap
  err : Option GoError
  trace : List Event
deriving DecidableEq, Repr

/-! ## `get` -/

/-- The `switch m` of get.go lines 61-78: what one matcher appends to `args`. -/
def bindArg (record : IndexRecord) : MatchConstraint → List String
  | .DistributionDID => [record.Distribution.DID]
  | .DistributionName => [record.Distribution.Name]
  | .DistributionVersion => [record.Distribution.Version]
  | .DistributionVersionCodeName => [record.Distribution.VersionCodeName]
  | .DistributionVersionID => [record.Distribution.VersionID]
  | .DistributionArch => [record.Distribution.Arch]
  | .DistributionCPE => [record.Distribution.CPE]
  | .DistributionPrettyName => [record.Distribution.PrettyName]
  | .other _ => []

/-- The body of the loop at get.go lines 55-79: the bind arguments of one record. -/
def bindArgs (record : IndexRecord) (dedupedMatchers : List MatchConstraint) : List String :=
  let args : List String := []
  let args := args ++ [record.Package.Source.Name]
  let args := args ++ [record.Package.Name]
  dedupedMatchers.foldl (fun args m => args ++ bindArg record m) args

/-- The loop at get.go lines 54-82: one `batch.Queue(getStmt.Name, args...)` per record. -/
def queueAll (getStmt : StatementDescription) (dedupedMatchers : List MatchConstraint) :
    List IndexRecord → List Queued → List Queued
  | [], batch => batch
  | record :: records, batch =>
    queueAll getStmt dedupedMatchers records
      (batch ++ [⟨getStmt.Name, bindArgs record dedupedMatchers⟩])

/-- The loop `for rows.Next() { ... }` of get.go lines 101-143 for one cursor: the
operations issued and either the updated map or the error `get` returns. -/
def scanRows (id : Int) : Rows → VulnMap → List Event × Except GoError VulnMap
  | [], results => ([.rowsNext false], .ok results)
  | .error err :: _, _ =>
    ([.rowsNext true, .rowsScan, .resClose],
      .error (Errorf "failed to scan vulnerability: " err))
  | .ok v :: rows, results =>
    let rest := scanRows id rows (results.add id v)
    (.rowsNext true :: .rowsScan :: rest.1, rest.2)

/-- The loop over the records at get.go lines 93-144; `i` counts the cursors
already retrieved. -/
def gather (d : Driver) (batch : List Queued) :
    Nat → List IndexRecord → VulnMap → List Event × Except GoError VulnMap
  | _, [], results => ([], .ok results)
  | i, record :: records, results =>
    match d.query batch i with
    | .error err => ([.resQuery, .resClose], .error err)
    | .ok rows =>
      match scanRows record.Package.ID rows results with
      | (t, .error err) => (.resQuery :: t, .error err)
      | (t, .ok results) =>
        let rest := gather d batch (i + 1) records results
        (.resQuery :: t ++ rest.1, rest.2)

/-- The function `get` of get.go.  The deferred `tx.Rollback(ctx)` runs last on every
path that got past `pool.Begin`. -/
def get (d : Driver) (records : List IndexRecord) (opts : GetOpts) : Outcome :=
  match d.getBuilder opts.Matchers with
  | .error err => ⟨none, some err, []⟩
  | .ok (query, dedupedMatchers) =>
    match d.writeString query with
    | some err => ⟨none, some err, []⟩
    | none =>
      let name := stmtName query
      match d.begin with
      | some err => ⟨none, some err, [.poolBegin]⟩
      | none =>
        match d.prepare name query with
        | .error err => ⟨none, some err, [.poolBegin, .txPrepare name query, .txRollback]⟩
        | .ok getStmt =>
          let batch := queueAll getStmt dedupedMatchers records []
          let sent : List Event :=
            [.poolBegin, .txPrepare name query] ++ batch.map Event.batchQueue ++ [.txSendBatch]
          match gather d batch 0 records [] with
          | (t, .error err) => ⟨none, some err, sent ++ t ++ [.txRollback]⟩
          | (t, .ok results) =>
            match d.close with
            | some err =>
              ⟨none, some (Errorf "some weird batch error: " err),
                sent ++ t ++ [.resClose, .txRollback]⟩
            | none =>
              match d.commit with
              | some err =>
                ⟨none, some (Errorf "failed to commit tx: " err),
                  sent ++ t ++ [.resClose, .txCommit, .txRollback]⟩
              | none => ⟨some results, none, sent ++ t ++ [.resClose, .txCommit, .txRollback]⟩

/-! ## Specification-side functions for `get` -/

/-- The distribution attribute a vocabulary matcher selects (`value_of` in the
specification); the empty string for a value outside the vocabulary. -/
def valueOf (record : IndexRecord) : MatchConstraint → String
  | .DistributionDID => record.Distribution.DID
  | .DistributionName => record.Distribution.Name
  | .DistributionVersion => record.Distribution.Version
  | .DistributionVersionCodeName => record.Distribution.VersionCodeName
  | .DistributionVersionID => record.Distribution.VersionID
  | .DistributionArch => record.Distribution.Arch
  | .DistributionCPE => record.Distribution.CPE
  | .DistributionPrettyName => record.Distribution.PrettyName
  | .other _ => ""

/-- The 64-bit FNV-1a digest as the specification words it: start at the offset basis;
for each byte, XOR it in and multiply by the prime modulo `2^64`. -/
def fnv1a64 (bytes : List Nat) : Nat :=
  bytes.foldl (fun h b => (Nat.xor h b * 1099511628211) % 2 ^ 64) 14695981039346656037

/-- The eight bytes of a 64-bit value, most significant first. -/
def bigEndian8 (n : Nat) : List Nat :=
  (List.range 8).map fun i => n / 256 ^ (7 - i) % 256

/-- One lowercase hexadecimal digit. -/
def hexDigit (d : Nat) : Char :=
  if d < 10 then Char.ofNat (48 + d) else Char.ofNat (87 + d)

/-- The lowercase hexadecimal rendering of a byte sequence, two digits per byte. -/
def lowerHex (bytes : List Nat) : String :=
  String.mk (bytes.flatMap fun b => [hexDigit (b / 16), hexDigit (b % 16)])

/-- The batch `get` sends: one statement per record, in record order. -/
def sentBatch (getStmt : StatementDescription) (ms : List MatchConstraint)
    (records : List IndexRecord) : List Queued :=
  records.map fun r => ⟨getStmt.Name, bindArgs r ms⟩

/-- The operations that retrieve one cursor holding the given rows and drain it:
`res.Query()`, then `rows.Next()` and `rows.Scan(...)` per row, then the `rows.Next()`
that reports the end. -/
def drainTrace (rows : List Vulnerability) : List Event :=
  Event.resQuery :: (rows.flatMap fun _ => [Event.rowsNext true, Event.rowsScan])
    ++ [Event.rowsNext false]

/-- The concatenation, in record order, of the row lists of the records whose
package id is `k`. -/
def rowsFor (k : Int) (records : List IndexRecord) (rowLists : List (List Vulnerability)) :
    List Vulnerability :=
  ((records.zip rowLists).filter fun p => decide (p.1.Package.ID = k)).flatMap fun p => p.2

/-- The vulnerabilities of the rows of a cursor whose scan succeeds. -/
def rowValues : Rows → List Vulnerability
  | [] => []
  | .ok v :: rows => v :: rowValues rows
  | .error _ :: rows => rowValues rows

/-- The rows drained from cursor `i` of the sent batch (empty when its retrieval fails). -/
def drained (d : Driver) (batch : List Queued) (i : Nat) : List Vulnerability :=
  match d.query batch i with
  | .ok rows => rowValues rows
  | .error _ => []

/-- The drained batch as a list of row lists: those of cursors `i, i+1, ..., i+n-1`. -/
def cursorRows (d : Driver) (batch : List Queued) : Nat → Nat → List (List Vulnerability)
  | _, 0 => []
  | i, n + 1 => drained d batch i :: cursorRows d batch (i + 1) n

/-- A map entry after appending the sequence `c` to it: unchanged when `c` is empty,
created when absent. -/
def appendEntry (entry : Option (List Vulnerability)) (c : List Vulnerability) :
    Option (List Vulnerability) :=
  if c = [] then entry else some (entry.getD [] ++ c)

/-- The operations issued on a sent batch and its cursors: none of them begins, commits
or rolls back a transaction. -/
def Event.inLoop : Event → Bool
  | .resQuery => true
  | .rowsNext _ => true
  | .rowsScan => true
  | .resClose => true
  | _ => false

/-- The stages of a call of `get`, in program order. -/
inductive Stage where
  | build
  | write
  | begin
  | prepare
  | send
  | scan
  | close
  | commit
deriving DecidableEq, Repr

/-- The error of the first row of a cursor whose scan fails. -/
def firstScanFailure : Rows → Option GoError
  | [] => none
  | .error e :: _ => some e
  | .ok _ :: rows => firstScanFailure rows

/-- The first failure among cursors `i, i+1, ..., i+n-1`: a failed retrieval or, in a
retrieved cursor, a failed row scan. -/
def firstCursorFailure (d : Driver) (batch : List Queued) : Nat → Nat → Option (Stage × GoError)
  | _, 0 => none
  | i, n + 1 =>
    match d.query batch i with
    | .error e => some (Stage.send, e)
    | .ok rows =>
      match firstScanFailure rows with
      | some e => some (Stage.scan, e)
      | none => firstCursorFailure d batch (i + 1) n

/-- The first stage, in program order, whose call fails, with the underlying error;
`none` when no stage fails. -/
def firstFailure (d : Driver) (records : List IndexRecord) (opts : GetOpts) :
    Option (Stage × GoError) :=
  match d.getBuilder opts.Matchers with
  | .error e => some (Stage.build, e)
  | .ok (query, ms) =>
    match d.writeString query, d.begin, d.prepare (stmtName query) query with
    | some e, _, _ => some (Stage.write, e)
    | none, some e, _ => some (Stage.begin, e)
    | none, none, .error e => some (Stage.prepare, e)
    | none, none, .ok getStmt =>
      match firstCursorFailure d (sentBatch getStmt ms records) 0 records.length,
          d.close, d.commit with
      | some f, _, _ => some f
      | none, some e, _ => some (Stage.close, e)
      | none, none, some e => some (Stage.commit, e)
      | none, none, none => none

/-- Every stage of the call succeeds: query build, fingerprint write, begin, prepare,
the retrieval of each of the `N` cursors, every row scan, batch close and commit. -/
def EveryStageSucceeds (d : Driver) (records : List IndexRecord) (opts : GetOpts) : Prop :=
  ∃ query ms getStmt,
    d.getBuilder opts.Matchers = .ok (query, ms) ∧
    d.writeString query = none ∧
    d.begin = none ∧
    d.prepare (stmtName query) query = .ok getStmt ∧
    (∀ i, i < records.length →
      ∃ rows, d.query (sentBatch getStmt ms records) i = .ok rows ∧
        ∀ row ∈ rows, ∃ v, row = Except.ok v) ∧
    d.close = none ∧
    d.commit = none

/-- The error `get` returns for a failure of the given stage: row-scan, batch-close and
commit failures get a message prefix, the others are passed on as they are. -/
def stageError : Stage → GoError → GoError
  | .scan, e => Errorf "failed to scan vulnerability: " e
  | .close, e => Errorf "some weird batch error: " e
  | .commit, e => Errorf "failed to commit tx: " e
  | _, e => e

/-- The bind arguments carried by a queue operation. -/
def Event.queuedArgs : Event → Option (List String)
  | .batchQueue q => some q.args
  | _ => none

/-! ## Example inputs -/

/-- An example distribution. -/
def exDist : Distribution :=
  { DID := "rhel", Name := "Red Hat Enterprise Linux", Version := "8", VersionCodeName := "Ootpa",
    VersionID := "8", Arch := "x86_64", CPE := "cpe:/o:redhat:enterprise_linux:8",
    PrettyName := "Red Hat Enterprise Linux 8" }

/-- An example index record with the given package id and name. -/
def exRecord (id : Int) (name : String) : IndexRecord :=
  { Package := { ID := id, Name := name, Version := "1.0", Kind := "binary",
                 Source := { Name := name ++ "-src" } },
    Distribution := exDist,
    Repository := { Name := "", Key := "", URI := "" } }

/-- An example vulnerability row with the given name. -/
def exVuln (name : String) : Vulnerability :=
  { ID := "1", Name := name, Description := "", Links := "", Severity := "",
    Package := { ID := 0, Name := "bash", Version := "", Kind := "binary", Source := { Name := "" } },
    Dist := exDist, Repo := { Name := "", Key := "", URI := "" }, FixedInVersion := "" }

/-- An example query builder: a fixed text and the requested matchers when all of them
are in the vocabulary, an error otherwise. -/
def exBuilder (ms : List MatchConstraint) : Except GoError (String × List MatchConstraint) :=
  if ms.all MatchConstraint.inVocabulary then .ok ("SELECT", ms)
  else .error ⟨"was provided unknown matcher"⟩

/-- An example database in which everything but the cursors is fixed and succeeds. -/
def exDriver (cursors : Nat → Except GoError Rows) : Driver :=
  { getBuilder := exBuilder,
    writeString := fun _ => none,
    begin := none,
    prepare := fun name _ => .ok ⟨name⟩,
    query := fun _ i => cursors i,
    close := none,
    commit := none }

/-- Example cursors: two rows for the first statement, one for the second, none after. -/
def exCursors : Nat → Except GoError Rows
  | 0 => .ok [.ok (exVuln "CVE-1"), .ok (exVuln "CVE-2")]
  | 1 => .ok [.ok (exVuln "CVE-3")]
  | _ => .ok []

/-- Example cursors: the first is retrieved, the retrieval of the second fails. -/
def exFailingCursors : Nat → Except GoError Rows
  | 0 => .ok [.ok (exVuln "CVE-1")]
  | _ => .error ⟨"boom"⟩

/-- Example options: two matchers of the vocabulary. -/
def exOpts : GetOpts :=
  { Matchers := [.DistributionDID, .DistributionVersionID] }

end Claircore

/-! ## The RHEL distribution scanner -/

namespace Rhel

open Claircore

/-- A compiled `*regexp.Regexp` over bytes. -/
abbrev Regexp := RegularExpression Nat

/-- The regexp of a literal text. -/
def lit (s : String) : Regexp :=
  (stringBytes s).foldr (fun b r => RegularExpression.char b * r) 1

/-- The regexp `(r)?`. -/
def opt (r : Regexp) : Regexp := 1 + r

/-- The class `\s` of Go regexps: tab, newline, form feed, carriage return, space. -/
def space : Regexp :=
  RegularExpression.char 9 + RegularExpression.char 10 + RegularExpression.char 12
    + RegularExpression.char 13 + RegularExpression.char 32

/-- The class `\d` of Go regexps: `0` to `9`. -/
def digit : Regexp :=
  ((List.range 10).map fun i => RegularExpression.char (48 + i)).foldr (· + ·) 0

/-- The method `(*Regexp).Match`: whether the bytes contain any match of the regexp. -/
def Regexp.Match (re : Regexp) (b : List Nat) : Bool :=
  b.tails.any fun t => t.inits.any fun p => re.rmatch p

/-- The releases named by the table `rhelRegexes`. -/
inductive Release where
  | RHEL3
  | RHEL4
  | RHEL5
  | RHEL6
  | RHEL7
  | RHEL8
deriving DecidableEq, Repr

/-- The type `rhelRegex`. -/
structure rhelRegex where
  release : Release
  regexp : Regexp

/-- The pattern `Red Hat Enterprise Linux (Server)?\s*(release)?\s*N(\.\d)?` for the
major version digit `N`. -/
def releasePattern (major : Char) : Regexp :=
  lit "Red Hat Enterprise Linux " * opt (lit "Server") * RegularExpression.star space
    * opt (lit "release") * RegularExpression.star space * lit (String.singleton major)
    * opt (lit "." * digit)

/-- The table `rhelRegexes`. -/
def rhelRegexes : List rhelRegex :=
  [ ⟨.RHEL3, releasePattern '3'⟩,
    ⟨.RHEL4, releasePattern '4'⟩,
    ⟨.RHEL5, releasePattern '5'⟩,
    ⟨.RHEL6, releasePattern '6'⟩,
    ⟨.RHEL7, releasePattern '7'⟩,
    ⟨.RHEL8, releasePattern '8'⟩ ]

/-- The constant `osReleasePath`. -/
def osReleasePath : String := "etc/os-release"

/-- The constant `rhReleasePath`. -/
def rhReleasePath : String := "etc/redhat-release"

/-- The layer as `Scan` sees it: `l.Files(paths...)` answers with an error or with the
retrieved buffers, listed in the order in which `range` visits the returned map. -/
structure Layer where
  Files : List String → Except GoError (List (String × List Nat))

/-- The loop of `DistributionScanner.parse` over a regexp table.  The function
`releaseToDist` is declared outside the file and is a parameter: it answers a
`*claircore.Distribution`, `none` for `nil`. -/
def parseWith (releaseToDist : Release → Option Distribution) (buff : List Nat) :
    List rhelRegex → Option Distribution
  | [] => none
  | ur :: rest =>
    if ur.regexp.Match buff then releaseToDist ur.release
    else parseWith releaseToDist buff rest

/-- The method `DistributionScanner.parse`. -/
def parse (releaseToDist : Release → Option Distribution) (buff : List Nat) :
    Option Distribution :=
  parseWith releaseToDist buff rhelRegexes

/-- The loop `for _, buff := range files` of `Scan` and the return after it. -/
def scanFiles (releaseToDist : Release → Option Distribution) :
    List (String × List Nat) → Option (List Distribution) × Option GoError
  | [] => (some [], none)
  | (_, buff) :: files =>
    match parse releaseToDist buff with
    | some dist => (some [dist], none)
    | none => scanFiles releaseToDist files

/-- The method `DistributionScanner.Scan`: the slice and the error it returns, `none`
for `nil`. -/
def Scan (releaseToDist : Release → Option Distribution) (l : Layer) :
    Option (List Distribution) × Option GoError :=
  match l.Files [osReleasePath, rhReleasePath] with
  | .error _ => (none, none)
  | .ok files => scanFiles releaseToDist files

/-- An example `releaseToDist`: the distribution whose version is the major number. -/
def exReleaseToDist : Release → Option Distribution
  | .RHEL3 => some { exDist with Version := "3", VersionID := "3" }
  | .RHEL4 => some { exDist with Version := "4", VersionID := "4" }
  | .RHEL5 => some { exDist with Version := "5", VersionID := "5" }
  | .RHEL6 => some { exDist with Version := "6", VersionID := "6" }
  | .RHEL7 => some { exDist with Version := "7", VersionID := "7" }
  | .RHEL8 => some { exDist with Version := "8", VersionID := "8" }

/-- An example layer: an `os-release` without a RHEL name, then a `redhat-release`. -/
def exLayer : Layer :=
  { Files := fun _ =>
      .ok [("etc/os-release", stringBytes "ID=rhel"),
           ("etc/redhat-release", stringBytes "Red Hat Enterprise Linux 4")] }

end Rhel

/-! # Theorems -/

/-! ## Lemmas on the bind arguments and the statement name -/

namespace Claircore

theorem foldl_bindArg (record : IndexRecord) (ms : List MatchConstraint) (init : List String) :
    ms.foldl (fun args m => args ++ bindArg record m) init = init ++ ms.flatMap (bindArg record) := by
  induction ms generalizing init with
  | nil => simp
  | cons m ms ih => simp [List.foldl_cons, ih, List.flatMap_cons, List.append_assoc]

theorem bindArg_vocabulary (record : IndexRecord) (m : MatchConstraint)
    (h : m.inVocabulary = true) : bindArg record m = [valueOf record m] := by
  cases m <;> first | rfl | simp [MatchConstraint.inVocabulary] at h

theorem flatMap_bindArg (record : IndexRecord) (ms : List MatchConstraint)
    (h : ∀ m ∈ ms, m.inVocabulary = true) :
    ms.flatMap (bindArg record) = ms.map (valueOf record) := by
  induction ms with
  | nil => rfl
  | cons m ms ih =>
    have hm := h m (List.mem_cons_self _ _)
    have := ih (fun x hx => h x (List.mem_cons_of_mem _ hx))
    simp [List.flatMap_cons, bindArg_vocabulary record m hm, this]

theorem bindArgs_eq (record : IndexRecord) (ms : List MatchConstraint)
    (h : ∀ m ∈ ms, m.inVocabulary = true) :
    bindArgs record ms
      = [record.Package.Source.Name, record.Package.Name] ++ ms.map (valueOf record) := by
  simp [bindArgs, foldl_bindArg, flatMap_bindArg record ms h]

theorem queueAll_eq (getStmt : StatementDescription) (ms : List MatchConstraint)
    (records : List IndexRecord) (batch : List Queued) :
    queueAll getStmt ms records batch
      = batch ++ records.map (fun r => ⟨getStmt.Name, bindArgs r ms⟩) := by
  induction records generalizing batch with
  | nil => simp [queueAll]
  | cons r rs ih => simp [queueAll, ih]

theorem hextable_getD (d : Nat) (h : d < 16) : hex.hextable.getD d '?' = hexDigit d := by
  interval_cases d <;> decide

theorem hex_Encode_eq (bs : List Nat) (h : ∀ b ∈ bs, b < 256) :
    hex.Encode bs = bs.flatMap fun b => [hexDigit (b / 16), hexDigit (b % 16)] := by
  induction bs with
  | nil => rfl
  | cons b bs ih =>
    have hb := h b (List.mem_cons_self _ _)
    have h1 : b >>> 4 = b / 16 := by rw [Nat.shiftRight_eq_div_pow]
    have h2 : b &&& 0x0f = b % 16 := Nat.and_pow_two_sub_one_eq_mod b 4
    have h3 : b / 16 < 16 := by omega
    have h4 : b % 16 < 16 := by omega
    simp only [hex.Encode, List.flatMap_cons, h1, h2, hextable_getD _ h3, hextable_getD _ h4,
      ih (fun x hx => h x (List.mem_cons_of_mem _ hx))]
    rfl

theorem fnv_Write_eq (bs : List Nat) (s : Nat) :
    fnv.Write s bs = bs.foldl (fun h b => (Nat.xor h b * 1099511628211) % 2 ^ 64) s := by
  induction bs generalizing s with
  | nil => rfl
  | cons b bs ih => simp only [fnv.Write, List.foldl_cons, ih]; rfl

theorem fnv_Sum_eq (s : Nat) : fnv.Sum s [] = bigEndian8 s := by
  simp only [fnv.Sum, bigEndian8, Nat.shiftRight_eq_div_pow]
  simp [List.range_succ]

end Claircore

/-! ## Lemmas on the result map -/

namespace Claircore

theorem VulnMap.find_set (m : VulnMap) (k k' : Int) (vs : List Vulnerability) :
    (VulnMap.set m k vs).find k' = if k = k' then some vs else m.find k' := by
  induction m with
  | nil => simp [VulnMap.set, VulnMap.find]
  | cons p m ih =>
    obtain ⟨k0, vs0⟩ := p
    by_cases h0 : k0 = k
    · subst h0
      by_cases h1 : k0 = k' <;> simp [VulnMap.set, VulnMap.find, h1]
    · by_cases h1 : k0 = k'
      · subst h1
        have h2 : ¬ k = k0 := fun h => h0 h.symm
        simp [VulnMap.set, VulnMap.find, h0, h2]
      · simp [VulnMap.set, VulnMap.find, h0, h1, ih]

theorem VulnMap.find_add (m : VulnMap) (k k' : Int) (v : Vulnerability) :
    (m.add k v).find k' = if k = k' then appendEntry (m.find k) [v] else m.find k' := by
  unfold VulnMap.add
  cases h : m.find k with
  | none => simp [VulnMap.find_set, appendEntry]
  | some vs => simp [VulnMap.find_set, appendEntry]

theorem appendEntry_nil (o : Option (List Vulnerability)) : appendEntry o [] = o := by
  simp [appendEntry]

theorem appendEntry_append (o : Option (List Vulnerability)) (c₁ c₂ : List Vulnerability) :
    appendEntry (appendEntry o c₁) c₂ = appendEntry o (c₁ ++ c₂) := by
  unfold appendEntry
  by_cases h1 : c₁ = [] <;> by_cases h2 : c₂ = [] <;> simp [h1, h2]

theorem find_foldl_add (id k : Int) (vs : List Vulnerability) (m : VulnMap) :
    (vs.foldl (fun m v => VulnMap.add m id v) m).find k
      = if id = k then appendEntry (m.find k) vs else m.find k := by
  induction vs generalizing m with
  | nil => simp [appendEntry_nil]
  | cons v vs ih =>
    rw [List.foldl_cons, ih, VulnMap.find_add]
    by_cases h : id = k
    · subst h
      simp only [if_true]
      rw [appendEntry_append]
      rfl
    · simp [h]

/-! ## Lemmas on the loops of `get` -/

theorem firstScanFailure_none_iff (rows : Rows) :
    firstScanFailure rows = none ↔ ∀ row ∈ rows, ∃ v, row = Except.ok v := by
  induction rows with
  | nil => simp [firstScanFailure]
  | cons r rows ih =>
    cases r with
    | error e => simp [firstScanFailure]
    | ok v => simp [firstScanFailure, ih]

theorem rows_eq_map_rowValues (rows : Rows) (h : firstScanFailure rows = none) :
    rows = (rowValues rows).map Except.ok := by
  induction rows with
  | nil => rfl
  | cons r rows ih =>
    cases r with
    | error e => simp [firstScanFailure] at h
    | ok v =>
      simp only [firstScanFailure] at h
      simp only [rowValues, List.map_cons]
      rw [← ih h]

theorem scanRows_ok (id : Int) (rows : Rows) (m : VulnMap) (h : firstScanFailure rows = none) :
    scanRows id rows m
      = (((rowValues rows).flatMap fun _ => [Event.rowsNext true, Event.rowsScan])
          ++ [Event.rowsNext false],
        .ok ((rowValues rows).foldl (fun m v => VulnMap.add m id v) m)) := by
  induction rows generalizing m with
  | nil => rfl
  | cons r rows ih =>
    cases r with
    | error e => simp [firstScanFailure] at h
    | ok v =>
      simp only [firstScanFailure] at h
      simp [scanRows, rowValues, ih _ h]

theorem scanRows_err (id : Int) (rows : Rows) (m : VulnMap) (e : GoError)
    (h : firstScanFailure rows = some e) :
    (scanRows id rows m).2 = .error (Errorf "failed to scan vulnerability: " e) := by
  induction rows generalizing m with
  | nil => simp [firstScanFailure] at h
  | cons r rows ih =>
    cases r with
    | error e' =>
      simp only [firstScanFailure, Option.some.injEq] at h
      simp [scanRows, h]
    | ok v =>
      simp only [firstScanFailure] at h
      simp [scanRows, ih _ h]

theorem scanRows_trace (id : Int) (rows : Rows) (m : VulnMap) :
    (∀ ev ∈ (scanRows id rows m).1, ev.inLoop = true ∧ ev ≠ Event.resQuery) ∧
    (∀ e, (scanRows id rows m).2 = .error e →
      (scanRows id rows m).1.getLast? = some Event.resClose) := by
  induction rows generalizing m with
  | nil => simp [scanRows, Event.inLoop]
  | cons r rows ih =>
    cases r with
    | error e' => simp [scanRows, Event.inLoop]
    | ok v =>
      obtain ⟨h1, h2⟩ := ih (m.add id v)
      refine ⟨?_, ?_⟩
      · intro ev hev
        simp only [scanRows, List.mem_cons] at hev
        rcases hev with rfl | rfl | hev
        · simp [Event.inLoop]
        · simp [Event.inLoop]
        · exact h1 ev hev
      · intro e he
        simp only [scanRows] at he ⊢
        have := h2 e he
        rw [List.getLast?_cons_cons, List.getLast?_cons]
        simp [this]

theorem rowsFor_cons (k : Int) (r : IndexRecord) (rs : List IndexRecord)
    (vs : List Vulnerability) (rest : List (List Vulnerability)) :
    rowsFor k (r :: rs) (vs :: rest)
      = (if r.Package.ID = k then vs else []) ++ rowsFor k rs rest := by
  by_cases h : r.Package.ID = k <;> simp [rowsFor, List.filter_cons, h]

theorem gather_ok (d : Driver) (batch : List Queued) (rs : List IndexRecord) :
    ∀ (i : Nat) (m0 : VulnMap), firstCursorFailure d batch i rs.length = none →
      ∃ m, gather d batch i rs m0
            = ((cursorRows d batch i rs.length).flatMap drainTrace, .ok m) ∧
          ∀ k, m.find k
            = appendEntry (m0.find k) (rowsFor k rs (cursorRows d batch i rs.length)) := by
  induction rs with
  | nil =>
    intro i m0 _
    exact ⟨m0, rfl, fun k => by simp [rowsFor, cursorRows, appendEntry_nil]⟩
  | cons r rs ih =>
    intro i m0 h
    simp only [List.length_cons, firstCursorFailure] at h
    cases hq : d.query batch i with
    | error e => simp [hq] at h
    | ok rows =>
      simp only [hq] at h
      cases hs : firstScanFailure rows with
      | some e => simp [hs] at h
      | none =>
        simp only [hs] at h
        obtain ⟨m, hm, hfind⟩ :=
          ih (i + 1) ((rowValues rows).foldl (fun m v => VulnMap.add m r.Package.ID v) m0) h
        refine ⟨m, ?_, ?_⟩
        · simp only [gather, hq, scanRows_ok _ _ _ hs, hm, List.length_cons, cursorRows,
            drained, List.flatMap_cons, drainTrace]
          simp
        · intro k
          rw [hfind k, find_foldl_add]
          simp only [List.length_cons, cursorRows, drained, hq, rowsFor_cons]
          by_cases hk : r.Package.ID = k
          · simp only [hk, if_true]
            rw [appendEntry_append]
          · simp [hk]

theorem gather_err (d : Driver) (batch : List Queued) (rs : List IndexRecord) :
    ∀ (i : Nat) (m0 : VulnMap) (s : Stage) (e : GoError),
      firstCursorFailure d batch i rs.length = some (s, e) →
      (gather d batch i rs m0).2 = .error (stageError s e) := by
  induction rs with
  | nil => intro i m0 s e h; simp [firstCursorFailure] at h
  | cons r rs ih =>
    intro i m0 s e h
    simp only [List.length_cons, firstCursorFailure] at h
    cases hq : d.query batch i with
    | error e' =>
      simp only [hq, Option.some.injEq, Prod.mk.injEq] at h
      obtain ⟨rfl, rfl⟩ := h
      simp [gather, hq, stageError]
    | ok rows =>
      simp only [hq] at h
      cases hs : firstScanFailure rows with
      | some e' =>
        simp only [hs, Option.some.injEq, Prod.mk.injEq] at h
        obtain ⟨rfl, rfl⟩ := h
        have h2 := scanRows_err r.Package.ID rows m0 e' hs
        simp only [gather, hq]
        split
        · next t err heq =>
          rw [heq] at h2
          simpa [stageError] using h2
        · next t res heq =>
          rw [heq] at h2
          simp at h2
      | none =>
        simp only [hs] at h
        simp only [gather, hq, scanRows_ok _ _ _ hs]
        exact ih _ _ s e h

theorem gather_trace (d : Driver) (batch : List Queued) (rs : List IndexRecord) :
    ∀ (i : Nat) (m0 : VulnMap),
      (∀ ev ∈ (gather d batch i rs m0).1, ev.inLoop = true) ∧
      (gather d batch i rs m0).1.count Event.resQuery ≤ rs.length := by
  induction rs with
  | nil => intro i m0; simp [gather]
  | cons r rs ih =>
    intro i m0
    cases hq : d.query batch i with
    | error e' => simp [gather, hq, Event.inLoop, List.count_cons]
    | ok rows =>
      have hsr := (scanRows_trace r.Package.ID rows m0).1
      have hcount : (scanRows r.Package.ID rows m0).1.count Event.resQuery = 0 := by
        rw [List.count_eq_zero]
        intro hmem
        exact (hsr _ hmem).2 rfl
      simp only [gather, hq]
      split
      · next t err heq =>
        rw [heq] at hsr hcount
        simp only at hsr hcount
        refine ⟨?_, ?_⟩
        · intro ev hev
          simp only [List.mem_cons] at hev
          rcases hev with rfl | hev
          · rfl
          · exact (hsr ev hev).1
        · simp [List.count_cons, hcount]
      · next t res heq =>
        rw [heq] at hsr hcount
        simp only at hsr hcount
        obtain ⟨h1, h2⟩ := ih (i + 1) res
        refine ⟨?_, ?_⟩
        · intro ev hev
          simp only [List.mem_cons, List.mem_append] at hev
          rcases hev with (rfl | hev) | hev
          · rfl
          · exact (hsr ev hev).1
          · exact h1 ev hev
        · simp only [List.count_cons, List.count_append, hcount, List.length_cons]
          simp
          omega

theorem firstCursorFailure_none_iff (d : Driver) (batch : List Queued) (n : Nat) :
    ∀ i, firstCursorFailure d batch i n = none ↔
      ∀ j, j < n → ∃ rows, d.query batch (i + j) = .ok rows ∧
        ∀ row ∈ rows, ∃ v, row = Except.ok v := by
  induction n with
  | zero => intro i; simp [firstCursorFailure]
  | succ n ih =>
    intro i
    simp only [firstCursorFailure]
    constructor
    · intro h j hj
      cases hq : d.query batch i with
      | error e => simp [hq] at h
      | ok rows =>
        simp only [hq] at h
        cases hs : firstScanFailure rows with
        | some e => simp [hs] at h
        | none =>
          simp only [hs] at h
          cases j with
          | zero => exact ⟨rows, by simpa using hq, (firstScanFailure_none_iff rows).1 hs⟩
          | succ j =>
            have := (ih (i + 1)).1 h j (by omega)
            have e : i + (j + 1) = i + 1 + j := by omega
            rw [e]
            exact this
    · intro h
      obtain ⟨rows, hq, hrows⟩ := h 0 (by omega)
      simp only [Nat.add_zero] at hq
      simp only [hq, (firstScanFailure_none_iff rows).2 hrows]
      refine (ih (i + 1)).2 ?_
      intro j hj
      have := h (j + 1) (by omega)
      have e : i + (j + 1) = i + 1 + j := by omega
      rw [e] at this
      exact this

theorem queueAll_nil_eq (getStmt : StatementDescription) (ms : List MatchConstraint)
    (records : List IndexRecord) :
    queueAll getStmt ms records [] = sentBatch getStmt ms records := by
  simp [queueAll_eq, sentBatch]

/-- The operations of a call up to and including the sending of the batch. -/
theorem get_prepared (d : Driver) (records : List IndexRecord) (opts : GetOpts)
    (query : String) (ms : List MatchConstraint) (getStmt : StatementDescription)
    (hb : d.getBuilder opts.Matchers = .ok (query, ms))
    (hw : d.writeString query = none) (hbg : d.begin = none)
    (hp : d.prepare (stmtName query) query = .ok getStmt) :
    get d records opts =
      (let sent : List Event :=
        [Event.poolBegin, Event.txPrepare (stmtName query) query]
          ++ (sentBatch getStmt ms records).map Event.batchQueue ++ [Event.txSendBatch]
      match gather d (sentBatch getStmt ms records) 0 records [] with
      | (t, .error err) => ⟨none, some err, sent ++ t ++ [Event.txRollback]⟩
      | (t, .ok results) =>
        match d.close with
        | some err =>
          ⟨none, some (Errorf "some weird batch error: " err),
            sent ++ t ++ [Event.resClose, Event.txRollback]⟩
        | none =>
          match d.commit with
          | some err =>
            ⟨none, some (Errorf "failed to commit tx: " err),
              sent ++ t ++ [Event.resClose, Event.txCommit, Event.txRollback]⟩
          | none =>
            ⟨some results, none,
              sent ++ t ++ [Event.resClose, Event.txCommit, Event.txRollback]⟩) := by
  simp only [get, hb, hw, hbg, hp, queueAll_nil_eq]

theorem get_succeed (d : Driver) (records : List IndexRecord) (opts : GetOpts)
    (h : firstFailure d records opts = none) :
    ∃ query ms getStmt m,
      d.getBuilder opts.Matchers = .ok (query, ms) ∧
      d.writeString query = none ∧ d.begin = none ∧
      d.prepare (stmtName query) query = .ok getStmt ∧
      firstCursorFailure d (sentBatch getStmt ms records) 0 records.length = none ∧
      d.close = none ∧ d.commit = none ∧
      get d records opts =
        ⟨some m, none,
          [Event.poolBegin, Event.txPrepare (stmtName query) query]
            ++ (sentBatch getStmt ms records).map Event.batchQueue ++ [Event.txSendBatch]
            ++ (cursorRows d (sentBatch getStmt ms records) 0 records.length).flatMap drainTrace
            ++ [Event.resClose, Event.txCommit, Event.txRollback]⟩ ∧
      ∀ k, m.find k = appendEntry none
        (rowsFor k records (cursorRows d (sentBatch getStmt ms records) 0 records.length)) := by
  unfold firstFailure at h
  cases hb : d.getBuilder opts.Matchers with
  | error e0 => simp [hb] at h
  | ok p =>
    obtain ⟨query, ms⟩ := p
    simp only [hb] at h
    cases hw : d.writeString query with
    | some e0 => simp [hw] at h
    | none =>
      cases hbg : d.begin with
      | some e0 => simp [hw, hbg] at h
      | none =>
        cases hp : d.prepare (stmtName query) query with
        | error e0 => simp [hw, hbg, hp] at h
        | ok getStmt =>
          simp only [hw, hbg, hp] at h
          cases hc : firstCursorFailure d (sentBatch getStmt ms records) 0 records.length with
          | some f => simp [hc] at h
          | none =>
            cases hcl : d.close with
            | some e0 => simp [hc, hcl] at h
            | none =>
              cases hcm : d.commit with
              | some e0 => simp [hc, hcl, hcm] at h
              | none =>
                obtain ⟨m, hm, hfind⟩ := gather_ok d (sentBatch getStmt ms records) records 0 [] hc
                refine ⟨query, ms, getStmt, m, rfl, hw, rfl, hp, hc, rfl, rfl, ?_, ?_⟩
                · rw [get_prepared d records opts query ms getStmt hb hw hbg hp]
                  simp only [hm, hcl, hcm]
                · intro k
                  rw [hfind k]
                  rfl

theorem firstCursorFailure_stage (d : Driver) (batch : List Queued) (n : Nat) :
    ∀ (i : Nat) (s : Stage) (e : GoError), firstCursorFailure d batch i n = some (s, e) →
      s = Stage.send ∨ s = Stage.scan := by
  induction n with
  | zero => intro i s e h; simp [firstCursorFailure] at h
  | succ n ih =>
    intro i s e h
    simp only [firstCursorFailure] at h
    cases hq : d.query batch i with
    | error e' =>
      simp only [hq, Option.some.injEq, Prod.mk.injEq] at h
      exact Or.inl h.1.symm
    | ok rows =>
      simp only [hq] at h
      cases hs : firstScanFailure rows with
      | some e' =>
        simp only [hs, Option.some.injEq, Prod.mk.injEq] at h
        exact Or.inr h.1.symm
      | none =>
        simp only [hs] at h
        exact ih _ s e h

theorem getLast?_snoc {α : Type} (l : List α) (a : α) : (l ++ [a]).getLast? = some a := by
  simp

theorem get_fail (d : Driver) (records : List IndexRecord) (opts : GetOpts)
    (s : Stage) (e : GoError) (h : firstFailure d records opts = some (s, e)) :
    (get d records opts).results = none ∧
    (get d records opts).err = some (stageError s e) ∧
    (s = Stage.build ∨ s = Stage.write → (get d records opts).trace = []) ∧
    (s ≠ Stage.commit → Event.txCommit ∉ (get d records opts).trace) ∧
    (s ≠ Stage.build → s ≠ Stage.write → s ≠ Stage.begin →
      (get d records opts).trace.getLast? = some Event.txRollback) := by
  unfold firstFailure at h
  cases hb : d.getBuilder opts.Matchers with
  | error e0 =>
    simp only [hb, Option.some.injEq, Prod.mk.injEq] at h
    obtain ⟨rfl, rfl⟩ := h
    simp [get, hb, stageError]
  | ok p =>
    obtain ⟨query, ms⟩ := p
    simp only [hb] at h
    cases hw : d.writeString query with
    | some e0 =>
      simp only [hw, Option.some.injEq, Prod.mk.injEq] at h
      obtain ⟨rfl, rfl⟩ := h
      simp [get, hb, hw, stageError]
    | none =>
      cases hbg : d.begin with
      | some e0 =>
        simp only [hw, hbg, Option.some.injEq, Prod.mk.injEq] at h
        obtain ⟨rfl, rfl⟩ := h
        simp [get, hb, hw, hbg, stageError]
      | none =>
        cases hp : d.prepare (stmtName query) query with
        | error e0 =>
          simp only [hw, hbg, hp, Option.some.injEq, Prod.mk.injEq] at h
          obtain ⟨rfl, rfl⟩ := h
          simp [get, hb, hw, hbg, hp, stageError]
        | ok getStmt =>
          simp only [hw, hbg, hp] at h
          rw [get_prepared d records opts query ms getStmt hb hw hbg hp]
          have htr := (gather_trace d (sentBatch getStmt ms records) records 0 []).1
          have hnc : ∀ t : List Event, (∀ ev ∈ t, ev.inLoop = true) → Event.txCommit ∉ t := by
            intro t ht hmem
            have := ht _ hmem
            simp [Event.inLoop] at this
          cases hc : firstCursorFailure d (sentBatch getStmt ms records) 0 records.length with
          | some f =>
            simp only [hc, Option.some.injEq] at h
            subst h
            have hst := firstCursorFailure_stage _ _ _ _ _ _ hc
            have hg := gather_err d (sentBatch getStmt ms records) records 0 [] s e hc
            rcases hgg : gather d (sentBatch getStmt ms records) 0 records [] with ⟨t, res⟩
            rw [hgg] at hg htr
            simp only at hg htr
            subst hg
            refine ⟨rfl, rfl, ?_, ?_, ?_⟩
            · intro hs
              rcases hs with rfl | rfl <;> rcases hst with hst | hst <;> cases hst
            · intro _
              simp only []
              simpa using hnc t htr
            · intro _ _ _
              exact getLast?_snoc _ _
          | none =>
            obtain ⟨m, hm, -⟩ := gather_ok d (sentBatch getStmt ms records) records 0 [] hc
            rw [hm] at htr
            simp only at htr
            cases hcl : d.close with
            | some e0 =>
              simp only [hc, hcl, Option.some.injEq, Prod.mk.injEq] at h
              obtain ⟨rfl, rfl⟩ := h
              simp only [hm]
              refine ⟨trivial, rfl, ?_, ?_, ?_⟩
              · intro hs; rcases hs with hs | hs <;> cases hs
              · intro _
                simpa using hnc _ htr
              · intro _ _ _
                have e : ∀ l : List Event, l ++ [Event.resClose, Event.txRollback]
                    = (l ++ [Event.resClose]) ++ [Event.txRollback] := by intro l; simp
                rw [e]
                exact getLast?_snoc _ _
            | none =>
              cases hcm : d.commit with
              | some e0 =>
                simp only [hc, hcl, hcm, Option.some.injEq, Prod.mk.injEq] at h
                obtain ⟨rfl, rfl⟩ := h
                simp only [hm]
                refine ⟨trivial, rfl, ?_, ?_, ?_⟩
                · intro hs; rcases hs with hs | hs <;> cases hs
                · intro hne; exact absurd rfl hne
                · intro _ _ _
                  have e : ∀ l : List Event, l ++ [Event.resClose, Event.txCommit, Event.txRollback]
                      = (l ++ [Event.resClose, Event.txCommit]) ++ [Event.txRollback] := by
                    intro l; simp
                  rw [e]
                  exact getLast?_snoc _ _
              | none => simp [hc, hcl, hcm] at h

/-- The shape of the trace of a call that got past `tx.Prepare`: the sending of the
batch, operations on the batch and its cursors, and the closing operations. -/
theorem get_trace_prepared (d : Driver) (records : List IndexRecord) (opts : GetOpts)
    (query : String) (ms : List MatchConstraint) (getStmt : StatementDescription)
    (hb : d.getBuilder opts.Matchers = .ok (query, ms))
    (hw : d.writeString query = none) (hbg : d.begin = none)
    (hp : d.prepare (stmtName query) query = .ok getStmt) :
    ∃ t tail,
      (get d records opts).trace
        = [Event.poolBegin, Event.txPrepare (stmtName query) query]
            ++ (sentBatch getStmt ms records).map Event.batchQueue ++ [Event.txSendBatch]
            ++ t ++ tail ∧
      (∀ ev ∈ t, ev.inLoop = true) ∧ t.count Event.resQuery ≤ records.length ∧
      (∀ ev ∈ tail, ev = Event.resClose ∨ ev = Event.txCommit ∨ ev = Event.txRollback) := by
  have htr := gather_trace d (sentBatch getStmt ms records) records 0 []
  rw [get_prepared d records opts query ms getStmt hb hw hbg hp]
  rcases hgg : gather d (sentBatch getStmt ms records) 0 records [] with ⟨t, res⟩
  rw [hgg] at htr
  cases res with
  | error err => exact ⟨t, [Event.txRollback], rfl, htr.1, htr.2, by simp⟩
  | ok results =>
    cases hcl : d.close with
    | some e0 => exact ⟨t, [Event.resClose, Event.txRollback], rfl, htr.1, htr.2, by simp⟩
    | none =>
      cases hcm : d.commit with
      | some e0 =>
        exact ⟨t, [Event.resClose, Event.txCommit, Event.txRollback], rfl, htr.1, htr.2,
          by simp⟩
      | none =>
        exact ⟨t, [Event.resClose, Event.txCommit, Event.txRollback], rfl, htr.1, htr.2,
          by simp⟩

/-- The shape of the trace of any call: nothing, a failed begin, a failed prepare, or
the shape of `get_trace_prepared`. -/
theorem get_trace_cases (d : Driver) (records : List IndexRecord) (opts : GetOpts) :
    (get d records opts).trace = [] ∨
    (get d records opts).trace = [Event.poolBegin] ∨
    (∃ query, (get d records opts).trace
        = [Event.poolBegin, Event.txPrepare (stmtName query) query, Event.txRollback]) ∨
    (∃ query ms getStmt t tail,
      d.getBuilder opts.Matchers = .ok (query, ms) ∧
      d.prepare (stmtName query) query = .ok getStmt ∧
      (get d records opts).trace
        = [Event.poolBegin, Event.txPrepare (stmtName query) query]
            ++ (sentBatch getStmt ms records).map Event.batchQueue ++ [Event.txSendBatch]
            ++ t ++ tail ∧
      (∀ ev ∈ t, ev.inLoop = true) ∧ t.count Event.resQuery ≤ records.length ∧
      (∀ ev ∈ tail, ev = Event.resClose ∨ ev = Event.txCommit ∨ ev = Event.txRollback)) := by
  cases hb : d.getBuilder opts.Matchers with
  | error e0 => left; simp [get, hb]
  | ok p =>
    obtain ⟨query, ms⟩ := p
    cases hw : d.writeString query with
    | some e0 => left; simp [get, hb, hw]
    | none =>
      cases hbg : d.begin with
      | some e0 => right; left; simp [get, hb, hw, hbg]
      | none =>
        cases hp : d.prepare (stmtName query) query with
        | error e0 => right; right; left; exact ⟨query, by simp [get, hb, hw, hbg, hp]⟩
        | ok getStmt =>
          right; right; right
          obtain ⟨t, tail, h⟩ := get_trace_prepared d records opts query ms getStmt hb hw hbg hp
          exact ⟨query, ms, getStmt, t, tail, rfl, hp, h⟩

theorem count_inLoop_zero (t : List Event) (ht : ∀ ev ∈ t, ev.inLoop = true) (a : Event)
    (ha : a.inLoop = false) : t.count a = 0 := by
  rw [List.count_eq_zero]
  intro hmem
  have := ht a hmem
  rw [ha] at this
  cases this

theorem count_map_batchQueue (batch : List Queued) (a : Event)
    (ha : ∀ q, a ≠ Event.batchQueue q) : (batch.map Event.batchQueue).count a = 0 := by
  rw [List.count_eq_zero]
  intro hmem
  obtain ⟨q, _, hq⟩ := List.mem_map.1 hmem
  exact ha q hq.symm

theorem count_tail_zero (tail : List Event) (a : Event)
    (h : ∀ ev ∈ tail, ev = Event.resClose ∨ ev = Event.txCommit ∨ ev = Event.txRollback)
    (h1 : a ≠ Event.resClose) (h2 : a ≠ Event.txCommit) (h3 : a ≠ Event.txRollback) :
    tail.count a = 0 := by
  rw [List.count_eq_zero]
  intro hmem
  rcases h a hmem with h | h | h
  · exact h1 h
  · exact h2 h
  · exact h3 h

theorem get_count_poolBegin (d : Driver) (records : List IndexRecord) (opts : GetOpts) :
    (get d records opts).trace.count Event.poolBegin ≤ 1 := by
  rcases get_trace_cases d records opts with h | h | ⟨q, h⟩ | ⟨q, ms, g, t, tail, -, -, h, ht, -, htl⟩
  · simp [h]
  · simp [h]
  · simp [h, List.count_cons]
  · rw [h]
    simp only [List.count_append, List.count_cons, List.count_nil]
    rw [count_inLoop_zero t ht Event.poolBegin rfl, count_map_batchQueue _ _ (by intro q hq; cases hq),
      count_tail_zero tail _ htl (by decide) (by decide) (by decide)]
    simp

theorem get_count_resQuery (d : Driver) (records : List IndexRecord) (opts : GetOpts) :
    (get d records opts).trace.count Event.resQuery ≤ records.length := by
  rcases get_trace_cases d records opts with h | h | ⟨q, h⟩ | ⟨q, ms, g, t, tail, -, -, h, ht, hc, htl⟩
  · simp [h]
  · simp [h, List.count_cons]
  · simp [h, List.count_cons]
  · rw [h]
    simp only [List.count_append, List.count_cons, List.count_nil]
    rw [count_map_batchQueue _ _ (by intro q hq; cases hq),
      count_tail_zero tail _ htl (by decide) (by decide) (by decide)]
    simpa using hc

theorem get_prepare_name (d : Driver) (records : List IndexRecord) (opts : GetOpts)
    (name q : String) (hmem : Event.txPrepare name q ∈ (get d records opts).trace) :
    name = stmtName q := by
  rcases get_trace_cases d records opts with h | h | ⟨q', h⟩ | ⟨q', ms, g, t, tail, -, -, h, ht, hc, htl⟩
  · simp [h] at hmem
  · simp [h] at hmem
  · simp [h] at hmem
    rw [hmem.1, hmem.2]
  · rw [h] at hmem
    simp only [List.mem_append, List.mem_cons, List.mem_map, List.mem_singleton,
      List.not_mem_nil, or_false] at hmem
    rcases hmem with (((hm | hm) | hm) | hm) | hm
    · rcases hm with hm | hm
      · cases hm
      · injection hm with h1 h2
        rw [h1, h2]
    · obtain ⟨x, _, hx⟩ := hm; cases hx
    · cases hm
    · have := ht _ hm
      simp [Event.inLoop] at this
    · rcases htl _ hm with hh | hh | hh <;> cases hh

theorem cursorRows_length (d : Driver) (batch : List Queued) (n : Nat) :
    ∀ i, (cursorRows d batch i n).length = n := by
  induction n with
  | zero => intro i; rfl
  | succ n ih => intro i; simp [cursorRows, ih]

theorem cursorRows_get? (d : Driver) (batch : List Queued) (n : Nat) :
    ∀ i j rows, (cursorRows d batch i n).get? j = some rows →
      j < n ∧ rows = drained d batch (i + j) := by
  induction n with
  | zero => intro i j rows h; simp [cursorRows] at h
  | succ n ih =>
    intro i j rows h
    cases j with
    | zero =>
      simp only [cursorRows, List.get?_cons_zero, Option.some.injEq] at h
      exact ⟨by omega, h.symm⟩
    | succ j =>
      simp only [cursorRows, List.get?_cons_succ] at h
      obtain ⟨h1, h2⟩ := ih (i + 1) j rows h
      refine ⟨by omega, ?_⟩
      rw [h2]
      congr 1
      omega

theorem cursorRows_query (d : Driver) (batch : List Queued) (n : Nat)
    (hc : firstCursorFailure d batch 0 n = none) (i : Nat) (rows : List Vulnerability)
    (h : (cursorRows d batch 0 n).get? i = some rows) :
    d.query batch i = .ok (rows.map Except.ok) := by
  obtain ⟨hi, hrows⟩ := cursorRows_get? d batch n 0 i rows h
  obtain ⟨rws, hq, hall⟩ := (firstCursorFailure_none_iff d batch n 0).1 hc i hi
  simp only [Nat.zero_add] at hq hrows
  have hs := (firstScanFailure_none_iff rws).2 hall
  rw [hrows]
  simp only [drained, hq]
  rw [← rows_eq_map_rowValues rws hs]

theorem firstFailure_none_iff (d : Driver) (records : List IndexRecord) (opts : GetOpts) :
    firstFailure d records opts = none ↔ EveryStageSucceeds d records opts := by
  constructor
  · intro h
    obtain ⟨query, ms, getStmt, m, hb, hw, hbg, hp, hc, hcl, hcm, -, -⟩ :=
      get_succeed d records opts h
    refine ⟨query, ms, getStmt, hb, hw, hbg, hp, ?_, hcl, hcm⟩
    intro i hi
    have := (firstCursorFailure_none_iff d _ records.length 0).1 hc i hi
    simpa using this
  · rintro ⟨query, ms, getStmt, hb, hw, hbg, hp, hq, hcl, hcm⟩
    have hc : firstCursorFailure d (sentBatch getStmt ms records) 0 records.length = none := by
      rw [firstCursorFailure_none_iff]
      intro j hj
      simpa using hq j hj
    simp [firstFailure, hb, hw, hbg, hp, hc, hcl, hcm]

/-- A successful call, read back: the stages that succeeded, the drained row lists,
the whole outcome and the content of the map. -/
theorem get_success_rows (d : Driver) (records : List IndexRecord) (opts : GetOpts)
    (query : String) (ms : List MatchConstraint) (getStmt : StatementDescription) (m : VulnMap)
    (hb : d.getBuilder opts.Matchers = .ok (query, ms))
    (hp : d.prepare (stmtName query) query = .ok getStmt)
    (hm : (get d records opts).results = some m) :
    d.writeString query = none ∧ d.begin = none ∧ d.close = none ∧ d.commit = none ∧
    ∃ rowLists : List (List Vulnerability),
      rowLists.length = records.length ∧
      (∀ i rows, rowLists.get? i = some rows →
        d.query (sentBatch getStmt ms records) i = .ok (rows.map Except.ok)) ∧
      get d records opts =
        ⟨some m, none,
          [Event.poolBegin, Event.txPrepare (stmtName query) query]
            ++ (sentBatch getStmt ms records).map Event.batchQueue ++ [Event.txSendBatch]
            ++ rowLists.flatMap drainTrace
            ++ [Event.resClose, Event.txCommit, Event.txRollback]⟩ ∧
      ∀ k, m.find k = appendEntry none (rowsFor k records rowLists) := by
  cases hf : firstFailure d records opts with
  | some f =>
    obtain ⟨s, e⟩ := f
    have := (get_fail d records opts s e hf).1
    rw [this] at hm
    cases hm
  | none =>
    obtain ⟨query', ms', getStmt', m', hb', hw, hbg, hp', hc, hcl, hcm, hget, hfind⟩ :=
      get_succeed d records opts hf
    rw [hb] at hb'
    injection hb' with hb'
    injection hb' with hq hms
    subst hq
    subst hms
    rw [hp] at hp'
    injection hp' with hg
    subst hg
    rw [hget] at hm
    injection hm with hm
    subst hm
    exact ⟨hw, hbg, hcl, hcm, _, cursorRows_length _ _ _ _,
      cursorRows_query d _ _ hc, hget, hfind⟩

theorem count_flatMap_drainTrace (rowLists : List (List Vulnerability)) :
    (rowLists.flatMap drainTrace).count Event.resQuery = rowLists.length := by
  induction rowLists with
  | nil => rfl
  | cons rows rest ih =>
    have h : (rows.flatMap fun _ => [Event.rowsNext true, Event.rowsScan]).count Event.resQuery
        = 0 := by
      rw [List.count_eq_zero]
      intro hmem
      obtain ⟨_, _, hx⟩ := List.mem_flatMap.1 hmem
      simp at hx
    simp only [List.flatMap_cons, List.count_append, ih, drainTrace, List.count_cons, h,
      List.length_cons]
    simp
    omega

theorem rowsFor_ne_nil_iff (k : Int) (records : List IndexRecord)
    (rowLists : List (List Vulnerability)) :
    rowsFor k records rowLists ≠ [] ↔
      ∃ p ∈ records.zip rowLists, p.1.Package.ID = k ∧ p.2 ≠ [] := by
  simp only [rowsFor, ne_eq, List.flatMap_eq_nil_iff, List.mem_filter, decide_eq_true_eq]
  constructor
  · intro h
    by_contra hcon
    apply h
    intro p hp
    by_contra hne
    exact hcon ⟨p, hp.1, hp.2, hne⟩
  · rintro ⟨p, hp, hk, hne⟩ h
    exact hne (h p ⟨hp, hk⟩)

theorem filterMap_queuedArgs_map (batch : List Queued) :
    (batch.map Event.batchQueue).filterMap Event.queuedArgs = batch.map fun q => q.args := by
  induction batch with
  | nil => rfl
  | cons q batch ih => simp [Event.queuedArgs, ih]

theorem filterMap_queuedArgs_nil (t : List Event)
    (ht : ∀ ev ∈ t, ∀ q, ev ≠ Event.batchQueue q) : t.filterMap Event.queuedArgs = [] := by
  induction t with
  | nil => rfl
  | cons ev t ih =>
    have h1 := ht ev (List.mem_cons_self _ _)
    have h2 := ih (fun x hx => ht x (List.mem_cons_of_mem _ hx))
    cases ev <;> first | exact absurd rfl (h1 _) | simpa [Event.queuedArgs] using h2

/-! ## The claims -/

/-- C1: on a successful call of `get`, with `rowLists` the rows of the `N` cursors, one
list per record in record order, the returned mapping sends each package identity `k` to
the concatenation, in record order, of the row lists of exactly the records whose
`Package.ID` is `k`, rows in database order (and holds no entry for `k` when that
concatenation is empty); two records sharing an identity give the rows of the first
followed by the rows of the second. -/
theorem get_mapping_concat (d : Driver) (records : List IndexRecord) (opts : GetOpts)
    (query : String) (ms : List MatchConstraint) (getStmt : StatementDescription) (m : VulnMap)
    (hb : d.getBuilder opts.Matchers = .ok (query, ms))
    (hp : d.prepare (stmtName query) query = .ok getStmt)
    (hm : (get d records opts).results = some m) :
    ∃ rowLists : List (List Vulnerability),
      rowLists.length = records.length ∧
      (∀ i rows, rowLists.get? i = some rows →
        d.query (sentBatch getStmt ms records) i = .ok (rows.map Except.ok)) ∧
      (∀ k, m.find k = if rowsFor k records rowLists = [] then none
                        else some (rowsFor k records rowLists)) ∧
      (∀ r₁ r₂ rows₁ rows₂, records = [r₁, r₂] → rowLists = [rows₁, rows₂] →
        r₁.Package.ID = r₂.Package.ID →
        (m.find r₁.Package.ID).getD [] = rows₁ ++ rows₂) := by
  obtain ⟨-, -, -, -, rowLists, hlen, hrows, -, hfind⟩ :=
    get_success_rows d records opts query ms getStmt m hb hp hm
  have hk : ∀ k, m.find k = if rowsFor k records rowLists = [] then none
      else some (rowsFor k records rowLists) := by
    intro k
    rw [hfind k]
    simp [appendEntry]
  refine ⟨rowLists, hlen, hrows, hk, ?_⟩
  intro r₁ r₂ rows₁ rows₂ hr hl hid
  rw [hk, hr, hl]
  have : rowsFor r₁.Package.ID [r₁, r₂] [rows₁, rows₂] = rows₁ ++ rows₂ := by
    simp [rowsFor, List.filter_cons, hid.symm]
  rw [this]
  by_cases h : rows₁ ++ rows₂ = []
  · rw [if_pos h, h]; rfl
  · rw [if_neg h]; rfl

/-- C1, at two records sharing the package identity 1: the entry for 1 holds the two rows
of the first record followed by the row of the second. -/
theorem get_mapping_concat_witness :
    (get (exDriver exCursors) [exRecord 1 "bash", exRecord 1 "bash-doc"] exOpts).results
        = some [(1, [exVuln "CVE-1", exVuln "CVE-2", exVuln "CVE-3"])] ∧
    ∃ rowLists : List (List Vulnerability),
      rowLists.length = 2 ∧
      (∀ k, VulnMap.find [(1, [exVuln "CVE-1", exVuln "CVE-2", exVuln "CVE-3"])] k
        = if rowsFor k [exRecord 1 "bash", exRecord 1 "bash-doc"] rowLists = [] then none
          else some (rowsFor k [exRecord 1 "bash", exRecord 1 "bash-doc"] rowLists)) := by
  have hm : (get (exDriver exCursors) [exRecord 1 "bash", exRecord 1 "bash-doc"] exOpts).results
      = some [(1, [exVuln "CVE-1", exVuln "CVE-2", exVuln "CVE-3"])] := by decide
  obtain ⟨rowLists, hlen, -, hk, -⟩ :=
    get_mapping_concat (exDriver exCursors) [exRecord 1 "bash", exRecord 1 "bash-doc"] exOpts
      "SELECT" [.DistributionDID, .DistributionVersionID] ⟨stmtName "SELECT"⟩ _ rfl rfl hm
  exact ⟨hm, rowLists, hlen, hk⟩

/-- C2: when the builder answers the matcher list `ms`, all of whose members are among the
eight vocabulary values, the bind-argument vectors `get` queues are, record by record,
the source-package name and the package name followed by the distribution attribute of
each matcher of `ms` in the order of `ms`; each has length `2 + length ms` and holds at
position `2 + j` the attribute selected by the `j`-th matcher. -/
theorem get_bind_arguments (d : Driver) (records : List IndexRecord) (opts : GetOpts)
    (query : String) (ms : List MatchConstraint) (getStmt : StatementDescription)
    (hb : d.getBuilder opts.Matchers = .ok (query, ms))
    (hw : d.writeString query = none) (hbg : d.begin = none)
    (hp : d.prepare (stmtName query) query = .ok getStmt)
    (hms : ∀ m ∈ ms, m.inVocabulary = true) :
    (get d records opts).trace.filterMap Event.queuedArgs
      = records.map (fun r =>
          [r.Package.Source.Name, r.Package.Name] ++ ms.map (valueOf r)) ∧
    ∀ r : IndexRecord,
      bindArgs r ms = [r.Package.Source.Name, r.Package.Name] ++ ms.map (valueOf r) ∧
      (bindArgs r ms).length = 2 + ms.length ∧
      ∀ j m, ms.get? j = some m → (bindArgs r ms).get? (2 + j) = some (valueOf r m) := by
  constructor
  · obtain ⟨t, tail, h, ht, -, htl⟩ :=
      get_trace_prepared d records opts query ms getStmt hb hw hbg hp
    · rw [h]
      simp only [List.filterMap_append, filterMap_queuedArgs_map]
      rw [filterMap_queuedArgs_nil t, filterMap_queuedArgs_nil tail]
      · simp [Event.queuedArgs, sentBatch, bindArgs_eq _ _ hms]
      · intro ev hev q hq
        rcases htl ev hev with h1 | h1 | h1 <;> rw [h1] at hq <;> cases hq
      · intro ev hev q hq
        have := ht ev hev
        rw [hq] at this
        cases this
  · intro r
    have h := bindArgs_eq r ms hms
    refine ⟨h, by rw [h]; simp; omega, ?_⟩
    intro j m hj
    rw [h]
    have e : 2 + j = j + 2 := by omega
    rw [e]
    simp [List.get?_eq_getElem?] at hj ⊢
    simp [hj]

/-- C2, at two records and the matchers `DistributionDID`, `DistributionVersionID`. -/
theorem get_bind_arguments_witness :
    (get (exDriver exCursors) [exRecord 1 "bash", exRecord 2 "zsh"] exOpts).trace.filterMap
        Event.queuedArgs
      = [["bash-src", "bash", "rhel", "8"], ["zsh-src", "zsh", "rhel", "8"]] :=
  (get_bind_arguments (exDriver exCursors) [exRecord 1 "bash", exRecord 2 "zsh"] exOpts
    "SELECT" [.DistributionDID, .DistributionVersionID] ⟨stmtName "SELECT"⟩ rfl rfl rfl rfl
    (by decide)).1

/-- C3: the trace of a successful call on `N` records is: begin, prepare, one queue
operation per record in record order, the sending of the batch, then for each record in
the same order the retrieval of one cursor followed by its complete draining, then the
batch close, the commit and the deferred rollback; so exactly `N` cursors are retrieved,
the close comes after the `N`-th cursor is drained and has succeeded when the commit is
issued.  No call at all retrieves more than `N` cursors. -/
theorem get_batch_protocol (d : Driver) (records : List IndexRecord) (opts : GetOpts)
    (query : String) (ms : List MatchConstraint) (getStmt : StatementDescription) (m : VulnMap)
    (hb : d.getBuilder opts.Matchers = .ok (query, ms))
    (hp : d.prepare (stmtName query) query = .ok getStmt)
    (hm : (get d records opts).results = some m) :
    (∃ rowLists : List (List Vulnerability),
      rowLists.length = records.length ∧
      (∀ i rows, rowLists.get? i = some rows →
        d.query (sentBatch getStmt ms records) i = .ok (rows.map Except.ok)) ∧
      (get d records opts).trace =
        [Event.poolBegin, Event.txPrepare (stmtName query) query]
          ++ records.map (fun r => Event.batchQueue ⟨getStmt.Name, bindArgs r ms⟩)
          ++ [Event.txSendBatch]
          ++ rowLists.flatMap drainTrace
          ++ [Event.resClose, Event.txCommit, Event.txRollback]) ∧
    (get d records opts).trace.count Event.resQuery = records.length ∧
    d.close = none ∧
    ∀ (d' : Driver) (records' : List IndexRecord) (opts' : GetOpts),
      (get d' records' opts').trace.count Event.resQuery ≤ records'.length := by
  obtain ⟨-, -, hcl, -, rowLists, hlen, hrows, hget, -⟩ :=
    get_success_rows d records opts query ms getStmt m hb hp hm
  have htrace : (get d records opts).trace =
      [Event.poolBegin, Event.txPrepare (stmtName query) query]
        ++ records.map (fun r => Event.batchQueue ⟨getStmt.Name, bindArgs r ms⟩)
        ++ [Event.txSendBatch]
        ++ rowLists.flatMap drainTrace
        ++ [Event.resClose, Event.txCommit, Event.txRollback] := by
    rw [hget]
    simp [sentBatch, List.map_map, Function.comp_def]
  refine ⟨⟨rowLists, hlen, hrows, htrace⟩, ?_, hcl, get_count_resQuery⟩
  rw [htrace]
  simp only [List.count_append, List.count_cons, List.count_nil, count_flatMap_drainTrace]
  have : (records.map (fun r => Event.batchQueue ⟨getStmt.Name, bindArgs r ms⟩)).count
      Event.resQuery = 0 := by
    rw [List.count_eq_zero]
    intro hmem
    obtain ⟨_, _, hx⟩ := List.mem_map.1 hmem
    cases hx
  rw [this, hlen]
  simp

/-- C3, at two records: two queue operations, then two cursors, each drained before the
next operation on the batch, then close, commit and the deferred rollback. -/
theorem get_batch_protocol_witness :
    (get (exDriver exCursors) [exRecord 1 "bash", exRecord 2 "zsh"] exOpts).trace
        = [Event.poolBegin, Event.txPrepare (stmtName "SELECT") "SELECT",
            Event.batchQueue ⟨stmtName "SELECT", ["bash-src", "bash", "rhel", "8"]⟩,
            Event.batchQueue ⟨stmtName "SELECT", ["zsh-src", "zsh", "rhel", "8"]⟩,
            Event.txSendBatch,
            Event.resQuery, Event.rowsNext true, Event.rowsScan, Event.rowsNext true,
            Event.rowsScan, Event.rowsNext false,
            Event.resQuery, Event.rowsNext true, Event.rowsScan, Event.rowsNext false,
            Event.resClose, Event.txCommit, Event.txRollback] ∧
    (get (exDriver exCursors) [exRecord 1 "bash", exRecord 2 "zsh"] exOpts).trace.count
        Event.resQuery = 2 :=
  ⟨by decide,
    (get_batch_protocol (exDriver exCursors) [exRecord 1 "bash", exRecord 2 "zsh"] exOpts
      "SELECT" [.DistributionDID, .DistributionVersionID] ⟨stmtName "SELECT"⟩
      [(1, [exVuln "CVE-1", exVuln "CVE-2"]), (2, [exVuln "CVE-3"])] rfl rfl (by decide)).2.1⟩

/-- C4: `get` returns a mapping exactly when every stage succeeds, and then returns no
error; when some stage fails it returns a nil mapping together with a non-nil error,
whatever had been accumulated before. -/
theorem get_all_or_nothing (d : Driver) (records : List IndexRecord) (opts : GetOpts) :
    ((∃ m, (get d records opts).results = some m) ↔ EveryStageSucceeds d records opts) ∧
    (EveryStageSucceeds d records opts → (get d records opts).err = none) ∧
    (¬ EveryStageSucceeds d records opts →
      (get d records opts).results = none ∧ ∃ e, (get d records opts).err = some e) := by
  have hfail : ¬ EveryStageSucceeds d records opts →
      (get d records opts).results = none ∧ ∃ e, (get d records opts).err = some e := by
    intro hne
    cases hf : firstFailure d records opts with
    | none => exact absurd ((firstFailure_none_iff d records opts).1 hf) hne
    | some f =>
      obtain ⟨s, e⟩ := f
      obtain ⟨h1, h2, -⟩ := get_fail d records opts s e hf
      exact ⟨h1, _, h2⟩
  have hok : EveryStageSucceeds d records opts →
      (∃ m, (get d records opts).results = some m) ∧ (get d records opts).err = none := by
    intro h
    obtain ⟨_, _, _, m, -, -, -, -, -, -, -, hget, -⟩ :=
      get_succeed d records opts ((firstFailure_none_iff d records opts).2 h)
    rw [hget]
    exact ⟨⟨m, rfl⟩, rfl⟩
  refine ⟨⟨?_, fun h => (hok h).1⟩, fun h => (hok h).2, hfail⟩
  rintro ⟨m, hm⟩
  by_contra hne
  rw [(hfail hne).1] at hm
  cases hm

/-- C4, at a call whose stages all succeed and at a call whose second cursor retrieval
fails: the first returns a mapping, the second returns nil and an error although a row
of the first record had been accumulated. -/
theorem get_all_or_nothing_witness :
    EveryStageSucceeds (exDriver exCursors) [exRecord 1 "bash", exRecord 2 "zsh"] exOpts ∧
    ¬ EveryStageSucceeds (exDriver exFailingCursors) [exRecord 1 "bash", exRecord 2 "zsh"]
        exOpts ∧
    (get (exDriver exFailingCursors) [exRecord 1 "bash", exRecord 2 "zsh"] exOpts).results
      = none := by
  have hnone : (get (exDriver exFailingCursors) [exRecord 1 "bash", exRecord 2 "zsh"]
      exOpts).results = none := by decide
  have hsome : (get (exDriver exCursors) [exRecord 1 "bash", exRecord 2 "zsh"] exOpts).results
      = some [(1, [exVuln "CVE-1", exVuln "CVE-2"]), (2, [exVuln "CVE-3"])] := by decide
  refine ⟨(get_all_or_nothing _ _ _).1.1 ⟨_, hsome⟩, ?_, hnone⟩
  intro h
  obtain ⟨m, hm⟩ := (get_all_or_nothing _ _ _).1.2 h
  rw [hnone] at hm
  cases hm

/-- C5: a call begins at most one transaction; when the first failing stage is prepare,
a cursor retrieval, a row scan, the batch close or the commit, the last operation issued
is the rollback; and when the first failing stage is any stage but the commit itself, no
commit is issued. -/
theorem get_rollback_on_error (d : Driver) (records : List IndexRecord) (opts : GetOpts) :
    (get d records opts).trace.count Event.poolBegin ≤ 1 ∧
    (∀ s e, firstFailure d records opts = some (s, e) →
      s = Stage.prepare ∨ s = Stage.send ∨ s = Stage.scan ∨ s = Stage.close
        ∨ s = Stage.commit →
      Event.poolBegin ∈ (get d records opts).trace ∧
      (get d records opts).trace.getLast? = some Event.txRollback) ∧
    (∀ s e, firstFailure d records opts = some (s, e) →
      s = Stage.prepare ∨ s = Stage.send ∨ s = Stage.scan ∨ s = Stage.close →
      Event.txCommit ∉ (get d records opts).trace) := by
  refine ⟨get_count_poolBegin d records opts, ?_, ?_⟩
  · intro s e hf hs
    obtain ⟨-, -, -, -, hlast⟩ := get_fail d records opts s e hf
    have hl := hlast (by rcases hs with h | h | h | h | h <;> rw [h] <;> decide)
      (by rcases hs with h | h | h | h | h <;> rw [h] <;> decide)
      (by rcases hs with h | h | h | h | h <;> rw [h] <;> decide)
    refine ⟨?_, hl⟩
    rcases get_trace_cases d records opts with h | h | ⟨q, h⟩ | ⟨q, ms, g, t, tail, -, -, h, -⟩
    · rw [h] at hl; cases hl
    · rw [h]; simp
    · rw [h]; simp
    · rw [h]; simp
  · intro s e hf hs
    obtain ⟨-, -, -, hnc, -⟩ := get_fail d records opts s e hf
    exact hnc (by rcases hs with h | h | h | h <;> rw [h] <;> decide)

/-- C5, at a call whose second cursor retrieval fails: the trace ends with the rollback
and holds no commit. -/
theorem get_rollback_on_error_witness :
    (get (exDriver exFailingCursors) [exRecord 1 "bash", exRecord 2 "zsh"]
        exOpts).trace.getLast? = some Event.txRollback ∧
    Event.txCommit ∉
      (get (exDriver exFailingCursors) [exRecord 1 "bash", exRecord 2 "zsh"] exOpts).trace :=
  ⟨((get_rollback_on_error _ _ _).2.1 Stage.send ⟨"boom"⟩ (by decide)
      (Or.inr (Or.inl rfl))).2,
    (get_rollback_on_error _ _ _).2.2 Stage.send ⟨"boom"⟩ (by decide) (Or.inr (Or.inl rfl))⟩

/-- C6 as stated fails: a failed retrieval of the second cursor with the error `boom` is
returned as that very error, under no label. -/
theorem get_cursor_error_unlabelled :
    firstFailure (exDriver exFailingCursors) [exRecord 1 "bash", exRecord 2 "zsh"] exOpts
      = some (Stage.send, ⟨"boom"⟩) ∧
    (get (exDriver exFailingCursors) [exRecord 1 "bash", exRecord 2 "zsh"] exOpts).err
      = some ⟨"boom"⟩ ∧
    ¬ ∃ label : String, label ≠ "" ∧
      (get (exDriver exFailingCursors) [exRecord 1 "bash", exRecord 2 "zsh"] exOpts).err
        = some (Errorf label ⟨"boom"⟩) := by
  have herr : (get (exDriver exFailingCursors) [exRecord 1 "bash", exRecord 2 "zsh"] exOpts).err
      = some ⟨"boom"⟩ := by decide
  refine ⟨by decide, herr, ?_⟩
  rintro ⟨label, hne, h⟩
  rw [herr] at h
  injection h with h
  injection h with h
  apply hne
  have hd : label.data ++ "boom".data = "boom".data := by
    rw [← String.data_append]
    exact (congrArg String.data h).symm
  have : label.data = [] := List.append_left_eq_self.1 hd
  exact String.ext this

/-- C6, amended: the error `get` returns is determined by the first failing stage: the
underlying error itself for a failure of the query build, the fingerprint write, begin,
prepare or a cursor retrieval; the underlying message prefixed by
`failed to scan vulnerability: `, `some weird batch error: ` or `failed to commit tx: `
for a failure of a row scan, the batch close or the commit; and no error when no stage
fails. -/
theorem get_error_by_stage (d : Driver) (records : List IndexRecord) (opts : GetOpts) :
    (get d records opts).err
        = (firstFailure d records opts).map (fun f => stageError f.1 f.2) ∧
    (∀ e, stageError Stage.build e = e ∧ stageError Stage.write e = e ∧
      stageError Stage.begin e = e ∧ stageError Stage.prepare e = e ∧
      stageError Stage.send e = e ∧
      stageError Stage.scan e = ⟨"failed to scan vulnerability: " ++ e.msg⟩ ∧
      stageError Stage.close e = ⟨"some weird batch error: " ++ e.msg⟩ ∧
      stageError Stage.commit e = ⟨"failed to commit tx: " ++ e.msg⟩) := by
  refine ⟨?_, fun e => ⟨rfl, rfl, rfl, rfl, rfl, rfl, rfl, rfl⟩⟩
  cases hf : firstFailure d records opts with
  | none =>
    obtain ⟨_, _, _, m, -, -, -, -, -, -, -, hget, -⟩ := get_succeed d records opts hf
    rw [hget]
    rfl
  | some f =>
    obtain ⟨s, e⟩ := f
    exact (get_fail d records opts s e hf).2.1

theorem VulnMap.eq_nil_of_find (m : VulnMap) (h : ∀ k, m.find k = none) : m = [] := by
  cases m with
  | nil => rfl
  | cons p m =>
    obtain ⟨k0, vs⟩ := p
    have := h k0
    simp [VulnMap.find] at this

/-- C7: on a successful call, with `rowLists` the rows of the `N` cursors, a package
identity is a key of the returned mapping exactly when some record with that identity
had at least one row; every stored sequence is non-empty; for no records the mapping is
empty and non-nil, and the call on no records succeeds with exactly that mapping once
the fingerprint write, begin, close and commit succeed. -/
theorem get_mapping_keys (d : Driver) (records : List IndexRecord) (opts : GetOpts)
    (query : String) (ms : List MatchConstraint) (getStmt : StatementDescription) (m : VulnMap)
    (hb : d.getBuilder opts.Matchers = .ok (query, ms))
    (hp : d.prepare (stmtName query) query = .ok getStmt)
    (hm : (get d records opts).results = some m) :
    (∃ rowLists : List (List Vulnerability),
      rowLists.length = records.length ∧
      (∀ i rows, rowLists.get? i = some rows →
        d.query (sentBatch getStmt ms records) i = .ok (rows.map Except.ok)) ∧
      (∀ k, (∃ vs, m.find k = some vs) ↔
        ∃ p ∈ records.zip rowLists, p.1.Package.ID = k ∧ p.2 ≠ [])) ∧
    (∀ k vs, m.find k = some vs → vs ≠ []) ∧
    (get d records opts).err = none ∧
    (records = [] → m = []) ∧
    (d.writeString query = none → d.begin = none → d.close = none → d.commit = none →
      (get d [] opts).results = some [] ∧ (get d [] opts).err = none) := by
  obtain ⟨-, -, -, -, rowLists, hlen, hrows, hget, hfind⟩ :=
    get_success_rows d records opts query ms getStmt m hb hp hm
  have hk : ∀ k, m.find k = if rowsFor k records rowLists = [] then none
      else some (rowsFor k records rowLists) := by
    intro k
    rw [hfind k]
    simp [appendEntry]
  refine ⟨⟨rowLists, hlen, hrows, ?_⟩, ?_, ?_, ?_, ?_⟩
  · intro k
    rw [← rowsFor_ne_nil_iff, hk k]
    by_cases h : rowsFor k records rowLists = []
    · simp [h]
    · simp [h]
  · intro k vs h
    rw [hk k] at h
    by_cases h' : rowsFor k records rowLists = []
    · simp [h'] at h
    · simp only [h', if_false, Option.some.injEq] at h
      rw [← h]
      exact h'
  · rw [hget]
  · intro hr
    apply VulnMap.eq_nil_of_find
    intro k
    rw [hk k, hr]
    simp [rowsFor]
  · intro hw hbg hcl hcm
    rw [get_prepared d [] opts query ms getStmt hb hw hbg hp]
    simp [gather, hcl, hcm]

/-- C7, at three records of which the third has no row: the identities 1 and 2 are keys,
3 is not, and the call returns no error. -/
theorem get_mapping_keys_witness :
    (get (exDriver exCursors) [exRecord 1 "bash", exRecord 2 "zsh", exRecord 3 "vim"]
        exOpts).results
      = some [(1, [exVuln "CVE-1", exVuln "CVE-2"]), (2, [exVuln "CVE-3"])] ∧
    (∀ k vs, VulnMap.find [(1, [exVuln "CVE-1", exVuln "CVE-2"]), (2, [exVuln "CVE-3"])] k
      = some vs → vs ≠ []) ∧
    (get (exDriver exCursors) [exRecord 1 "bash", exRecord 2 "zsh", exRecord 3 "vim"]
        exOpts).err = none ∧
    (get (exDriver exCursors) [] exOpts).results = some [] := by
  have hm : (get (exDriver exCursors) [exRecord 1 "bash", exRecord 2 "zsh", exRecord 3 "vim"]
      exOpts).results
      = some [(1, [exVuln "CVE-1", exVuln "CVE-2"]), (2, [exVuln "CVE-3"])] := by decide
  obtain ⟨-, h2, h3, -, h5⟩ :=
    get_mapping_keys (exDriver exCursors)
      [exRecord 1 "bash", exRecord 2 "zsh", exRecord 3 "vim"] exOpts
      "SELECT" [.DistributionDID, .DistributionVersionID] ⟨stmtName "SELECT"⟩ _ rfl rfl hm
  exact ⟨hm, h2, h3, (h5 rfl rfl rfl rfl).1⟩

/-- C8: when the query builder answers an error, `get` returns that error with a nil
mapping and issues no operation at all: no begin, prepare, queue, send, commit or
rollback. -/
theorem get_builder_error (d : Driver) (records : List IndexRecord) (opts : GetOpts)
    (e : GoError) (h : d.getBuilder opts.Matchers = .error e) :
    get d records opts = ⟨none, some e, []⟩ := by
  simp [get, h]

/-- C8, at a requested matcher outside the vocabulary. -/
theorem get_builder_error_witness :
    get (exDriver exCursors) [exRecord 1 "bash"] ⟨[.DistributionDID, .other 99]⟩
      = ⟨none, some ⟨"was provided unknown matcher"⟩, []⟩ :=
  get_builder_error (exDriver exCursors) [exRecord 1 "bash"] ⟨[.DistributionDID, .other 99]⟩
    ⟨"was provided unknown matcher"⟩ rfl

theorem hextable_getD_mem (d : Nat) (h : d < 16) :
    hex.hextable.getD d '?' ∈ "0123456789abcdef".toList := by
  interval_cases d <;> decide

theorem hex_Encode_length (bs : List Nat) : (hex.Encode bs).length = 2 * bs.length := by
  induction bs with
  | nil => rfl
  | cons b bs ih => simp [hex.Encode, ih]; omega

theorem hex_Encode_mem (bs : List Nat) (h : ∀ b ∈ bs, b < 256) :
    ∀ c ∈ hex.Encode bs, c ∈ "0123456789abcdef".toList := by
  induction bs with
  | nil => intro c hc; simp [hex.Encode] at hc
  | cons b bs ih =>
    intro c hc
    have hb := h b (List.mem_cons_self _ _)
    have h1 : b >>> 4 = b / 16 := by rw [Nat.shiftRight_eq_div_pow]
    have h2 : b &&& 0x0f = b % 16 := Nat.and_pow_two_sub_one_eq_mod b 4
    simp only [hex.Encode, List.mem_cons] at hc
    rcases hc with rfl | rfl | hc
    · rw [h1]; exact hextable_getD_mem _ (by omega)
    · rw [h2]; exact hextable_getD_mem _ (by omega)
    · exact ih (fun x hx => h x (List.mem_cons_of_mem _ hx)) c hc

theorem fnv_Sum_lt (s : Nat) : ∀ b ∈ fnv.Sum s [], b < 256 := by
  intro b hb
  simp only [fnv.Sum, List.nil_append, List.mem_cons, List.mem_singleton, List.not_mem_nil,
    or_false] at hb
  rcases hb with h | h | h | h | h | h | h | h <;> rw [h] <;> exact Nat.mod_lt _ (by decide)

/-- C9: the prepared-statement name is a function of the query text alone: the lowercase
hexadecimal rendering of the eight big-endian bytes of the 64-bit FNV-1a digest of the
bytes of the text.  It has 16 characters, all among `0123456789abcdef`; the empty text gives
`cbf29ce484222325`; and every prepare operation `get` issues carries that name for the
query text it prepares. -/
theorem stmtName_fnv1a (sql : String) :
    stmtName sql = lowerHex (bigEndian8 (fnv1a64 (stringBytes sql))) ∧
    (stmtName sql).length = 16 ∧
    (∀ c ∈ (stmtName sql).toList, c ∈ "0123456789abcdef".toList) ∧
    stmtName "" = "cbf29ce484222325" ∧
    ∀ (d : Driver) (records : List IndexRecord) (opts : GetOpts) (name q : String),
      Event.txPrepare name q ∈ (get d records opts).trace → name = stmtName q := by
  refine ⟨?_, ?_, ?_, by decide, get_prepare_name⟩
  · simp only [stmtName, hex.EncodeToString, lowerHex]
    rw [hex_Encode_eq _ (fnv_Sum_lt _), fnv_Sum_eq, fnv.New64a, fnv.offset64, fnv_Write_eq]
    rfl
  · simp only [stmtName, hex.EncodeToString, String.length, hex_Encode_length]
    simp [fnv.Sum]
  · intro c hc
    simp only [stmtName, hex.EncodeToString] at hc
    exact hex_Encode_mem _ (fnv_Sum_lt _) c hc

end Claircore

namespace Rhel

open Claircore

theorem parseWith_eq_find (releaseToDist : Release → Option Distribution) (buff : List Nat)
    (table : List rhelRegex) :
    parseWith releaseToDist buff table
      = match table.find? (fun ur => ur.regexp.Match buff) with
        | some ur => releaseToDist ur.release
        | none => none := by
  induction table with
  | nil => rfl
  | cons ur rest ih =>
    by_cases h : ur.regexp.Match buff = true
    · simp [parseWith, List.find?_cons, h]
    · simp only [Bool.not_eq_true] at h
      simp [parseWith, List.find?_cons, h, ih]

theorem scanFiles_none (releaseToDist : Release → Option Distribution)
    (files : List (String × List Nat))
    (h : ∀ f ∈ files, parse releaseToDist f.2 = none) :
    scanFiles releaseToDist files = (some [], none) := by
  induction files with
  | nil => rfl
  | cons f files ih =>
    obtain ⟨name, buff⟩ := f
    have h1 : parse releaseToDist buff = none := h (name, buff) (List.mem_cons_self _ _)
    simp only [scanFiles, h1]
    exact ih (fun g hg => h g (List.mem_cons_of_mem _ hg))

theorem scanFiles_first (releaseToDist : Release → Option Distribution)
    (pre post : List (String × List Nat)) (f : String × List Nat) (dist : Distribution)
    (h : ∀ g ∈ pre, parse releaseToDist g.2 = none)
    (hf : parse releaseToDist f.2 = some dist) :
    scanFiles releaseToDist (pre ++ f :: post) = (some [dist], none) := by
  induction pre with
  | nil =>
    obtain ⟨name, buff⟩ := f
    simp only [List.nil_append, scanFiles]
    simp only at hf
    rw [hf]
  | cons g pre ih =>
    obtain ⟨name, buff⟩ := g
    have h1 : parse releaseToDist buff = none := h (name, buff) (List.mem_cons_self _ _)
    simp only [List.cons_append, scanFiles, h1]
    exact ih (fun x hx => h x (List.mem_cons_of_mem _ hx))

theorem scanFiles_shape (releaseToDist : Release → Option Distribution)
    (files : List (String × List Nat)) :
    (scanFiles releaseToDist files).2 = none ∧
    ∃ ds, (scanFiles releaseToDist files).1 = some ds ∧ ds.length ≤ 1 := by
  induction files with
  | nil => exact ⟨rfl, [], rfl, by simp⟩
  | cons f files ih =>
    obtain ⟨name, buff⟩ := f
    cases hp : parse releaseToDist buff with
    | none => simpa [scanFiles, hp] using ih
    | some dist => simp [scanFiles, hp]

/-- C10: `Scan` never returns an error and returns at most one distribution: `(nil, nil)`
when the retrieval of `etc/os-release` and `etc/redhat-release` fails; an empty, non-nil
slice when `parse` yields nothing for every retrieved file; otherwise the one-element
slice holding the result of `parse` for the first retrieved file, in iteration order, for
which `parse` is non-nil.  And `parse` answers `releaseToDist` of the first entry of the
table RHEL3..RHEL8 whose regexp matches the bytes, nil when none does. -/
theorem Scan_first_match (releaseToDist : Release → Option Distribution) (l : Layer) :
    (Scan releaseToDist l).2 = none ∧
    (∀ ds, (Scan releaseToDist l).1 = some ds → ds.length ≤ 1) ∧
    (∀ e, l.Files ["etc/os-release", "etc/redhat-release"] = .error e →
      Scan releaseToDist l = (none, none)) ∧
    (∀ files, l.Files ["etc/os-release", "etc/redhat-release"] = .ok files →
      (∀ f ∈ files, parse releaseToDist f.2 = none) →
      Scan releaseToDist l = (some [], none)) ∧
    (∀ pre f post dist, l.Files ["etc/os-release", "etc/redhat-release"]
        = .ok (pre ++ f :: post) →
      (∀ g ∈ pre, parse releaseToDist g.2 = none) → parse releaseToDist f.2 = some dist →
      Scan releaseToDist l = (some [dist], none)) ∧
    (∀ buff, parse releaseToDist buff
      = match rhelRegexes.find? (fun ur => ur.regexp.Match buff) with
        | some ur => releaseToDist ur.release
        | none => none) ∧
    rhelRegexes.map (fun ur => ur.release)
      = [Release.RHEL3, Release.RHEL4, Release.RHEL5, Release.RHEL6, Release.RHEL7,
          Release.RHEL8] ∧
    rhelRegexes.map (fun ur => ur.regexp)
      = ['3', '4', '5', '6', '7', '8'].map releasePattern := by
  have hpaths : [osReleasePath, rhReleasePath] = ["etc/os-release", "etc/redhat-release"] := rfl
  refine ⟨?_, ?_, ?_, ?_, ?_, ?_, rfl, rfl⟩
  · unfold Scan
    cases l.Files [osReleasePath, rhReleasePath] with
    | error e => rfl
    | ok files => exact (scanFiles_shape releaseToDist files).1
  · intro ds hds
    unfold Scan at hds
    cases hF : l.Files [osReleasePath, rhReleasePath] with
    | error e => simp [hF] at hds
    | ok files =>
      simp only [hF] at hds
      obtain ⟨ds', h1, h2⟩ := (scanFiles_shape releaseToDist files).2
      rw [h1] at hds
      injection hds with hds
      rw [← hds]
      exact h2
  · intro e he
    rw [← hpaths] at he
    simp [Scan, he]
  · intro files hF hall
    rw [← hpaths] at hF
    simp only [Scan, hF]
    exact scanFiles_none releaseToDist files hall
  · intro pre f post dist hF hpre hf
    rw [← hpaths] at hF
    simp only [Scan, hF]
    exact scanFiles_first releaseToDist pre post f dist hpre hf
  · intro buff
    exact parseWith_eq_find releaseToDist buff rhelRegexes

set_option maxRecDepth 100000 in
/-- C10, at a layer whose `os-release` matches no regexp and whose `redhat-release` reads
`Red Hat Enterprise Linux 4`: the first file yields nothing, the second matches the
second table entry, and `Scan` returns the one distribution of RHEL4 and no error. -/
theorem Scan_first_match_witness :
    Scan exReleaseToDist exLayer
      = (some [{ exDist with Version := "4", VersionID := "4" }], none) :=
  (Scan_first_match exReleaseToDist exLayer).2.2.2.2.1
    [("etc/os-release", stringBytes "ID=rhel")]
    ("etc/redhat-release", stringBytes "Red Hat Enterprise Linux 4") []
    { exDist with Version := "4", VersionID := "4" } rfl (by decide) (by decide)

end Rhel
